import Mathlib

/-!
# Fog-volume ray marcher (`ex_raytrace_fog_volume/openvdb.cc`)

A shallow embedding of `runOpenVDB` and of the render kernel `renderOp` it builds
(`src/nanovdb/nanovdb/examples/ex_raytrace_fog_volume/openvdb.cc`).

Conventions of the embedding.

* `float` values are exact rationals (`ℚ`) and their arithmetic is exact, so `0.5f` is
  `1/2` and `0.1f` is `1/10`: the statements about composited values are about exact
  arithmetic. Whether the march loop exits depends on the rounding of `t += dt`, so its
  control is modelled a second time with a binary32 loop variable (`marchF32`).
* `int` values are integers (`ℤ`); the only `int` arithmetic of the kernel is `++i`
  under the guard `i < end`, which cannot overflow.
* The library code the kernel calls (ray generation, the ray class, the grid and its
  accessor, the compositor, the dispatcher `renderImage`) is not part of the file; it
  enters as the fields of `Collab`, and every theorem holds for all values of them unless
  it states a hypothesis about one.
* The kernel's effects are made explicit: the image is threaded through the compositor,
  and the coordinates looked up through the accessor are appended to a read log.
-/

namespace FogVolume

/-- `Vec3T = openvdb::math::Vec3<float>` (line 30), three exact components. -/
structure Vec3T where
  x : ℚ
  y : ℚ
  z : ℚ
deriving DecidableEq

/-- `CoordT = openvdb::Coord` (line 28), a signed integer index-space coordinate. -/
structure CoordT where
  x : ℤ
  y : ℤ
  z : ℤ
deriving DecidableEq

/-- Modelled from the spec: `CoordT::floor` is declared in the Coord header, which is
not among the sources; the spec has the sampled position floored to an integer
coordinate, which is the floor of each component. -/
def CoordT.floor (v : Vec3T) : CoordT :=
  { x := ⌊v.x⌋, y := ⌊v.y⌋, z := ⌊v.z⌋ }

/-- The collaborators of the kernel: everything `openvdb.cc` calls but does not define.
`RayT` is `openvdb::math::Ray<float>`, `GridT` is `openvdb::FloatGrid`, `Image` is the
state of the buffer behind `float* image`. -/
structure Collab (RayT GridT Image : Type) where
  /-- The call `rayGenOp(i, width, height, rayEye, rayDir)` of line 60: the two outputs. -/
  rayGenOp : ℤ → ℤ → ℤ → Vec3T × Vec3T
  /-- The constructor `RayT wRay(rayEye, rayDir)` of line 62. -/
  mkRay : Vec3T → Vec3T → RayT
  /-- The call `wRay.worldToIndex(*grid)` of line 64. -/
  worldToIndex : RayT → GridT → RayT
  /-- The call `iRay.clip(treeIndexBbox)` of line 66, for the captured box: `none` when
  it returns `false`, otherwise the ray with its interval clipped. -/
  clip : RayT → Option RayT
  /-- Start of the parametric interval, `iRay.t0()`. -/
  t0 : RayT → ℚ
  /-- End of the parametric interval, `iRay.t1()`. -/
  t1 : RayT → ℚ
  /-- The position `iRay(t)` of line 74. -/
  point : RayT → ℚ → Vec3T
  /-- The lookup `acc.getValue(c)` of line 74, for an accessor of the grid. -/
  getValue : GridT → CoordT → ℚ
  /-- The call `compositeOp(image, i, width, height, value, alpha)` of lines 67 and 78. -/
  compositeOp : Image → ℤ → ℤ → ℤ → ℚ → ℚ → Image
  /-- The call `renderImage(false, renderOp, width, height, image, grid)` of line 85: the
  buffer it leaves, given the kernel as a function of `start`, `end`, buffer and grid. -/
  renderImage : (ℤ → ℤ → Image → GridT → Image) → ℤ → ℤ → Image → GridT → Image

/-- The step size `const float dt = 0.5f` (line 71). -/
def dt : ℚ := 1 / 2

/-- State of the march loop (lines 72-76): the loop variable `t`, the accumulated
`transmittance`, and the log of the coordinates read through the accessor so far. -/
structure MarchState where
  t : ℚ
  transmittance : ℚ
  reads : List CoordT

variable {RayT GridT Image : Type}

/-- One iteration of the march loop: the body (lines 74-75) and then `t += dt`. -/
def marchStep (K : Collab RayT GridT Image) (grid : GridT) (iRay : RayT)
    (s : MarchState) : MarchState :=
  let c := CoordT.floor (K.point iRay s.t)
  let sigma := K.getValue grid c * (1 / 10)
  { t := s.t + dt
    transmittance := s.transmittance * (1 - sigma * dt)
    reads := s.reads ++ [c] }

/-- The loop `for (float t = iRay.t0(); t < iRay.t1(); t += dt)` from a given state, in
exact arithmetic: the sum `t + dt` is not rounded here, so this function gives the values
the loop computes under that idealisation and says nothing about whether the binary32
loop exits (for that see `marchF32`). -/
def march (K : Collab RayT GridT Image) (grid : GridT) (iRay : RayT)
    (s : MarchState) : MarchState :=
  if s.t < K.t1 iRay then march K grid iRay (marchStep K grid iRay s) else s
termination_by ⌈(K.t1 iRay - s.t) / dt⌉.toNat
decreasing_by
  rename_i h
  have hpos : 0 < (K.t1 iRay - s.t) / dt := by
    unfold dt; linarith
  have hstep : (K.t1 iRay - (marchStep K grid iRay s).t) / dt
      = (K.t1 iRay - s.t) / dt - 1 := by
    simp only [marchStep, dt]; ring
  rw [hstep, Int.ceil_sub_one]
  have hc : 0 < ⌈(K.t1 iRay - s.t) / dt⌉ := Int.ceil_pos.mpr hpos
  omega

/-- State of one kernel invocation: the image buffer and the accessor's read log. -/
structure Run (Image : Type) where
  image : Image
  reads : List CoordT

/-- The pixel loop `for (int i = start; i < end; ++i)` of the kernel (lines 57-79), from
pixel `i` on. A miss composites `(0, 0)` and returns from the kernel (lines 66-69). -/
def renderLoop (K : Collab RayT GridT Image) (width height : ℤ) (end_ : ℤ) (grid : GridT)
    (i : ℤ) (s : Run Image) : Run Image :=
  if i < end_ then
    let rayGen := K.rayGenOp i width height
    let wRay := K.mkRay rayGen.1 rayGen.2
    let iRay := K.worldToIndex wRay grid
    match K.clip iRay with
    | none => { s with image := K.compositeOp s.image i width height 0 0 }
    | some iRay =>
      let m := march K grid iRay { t := K.t0 iRay, transmittance := 1, reads := s.reads }
      renderLoop K width height end_ grid (i + 1)
        { image := K.compositeOp s.image i width height 0 (1 - m.transmittance)
          reads := m.reads }
  else s
termination_by (end_ - i).toNat
decreasing_by omega

/-- The kernel `renderOp(start, end, image, grid)` (lines 53-80): a fresh accessor
(line 55), then the pixel loop. -/
def renderOp (K : Collab RayT GridT Image) (width height : ℤ) (start end_ : ℤ)
    (image : Image) (grid : GridT) : Run Image :=
  renderLoop K width height end_ grid start { image := image, reads := [] }

/-- The value of `1.0f - transmittance` at line 78 for a clipped ray: lines 71-76 run
from `t = iRay.t0()` with `transmittance = 1.0f`. -/
def opacity (K : Collab RayT GridT Image) (grid : GridT) (iRay : RayT) : ℚ :=
  1 - (march K grid iRay { t := K.t0 iRay, transmittance := 1, reads := [] }).transmittance

/-- The index-space ray of pixel `i` before clipping (lines 58-64). -/
def indexRay (K : Collab RayT GridT Image) (width height : ℤ) (grid : GridT) (i : ℤ) : RayT :=
  K.worldToIndex (K.mkRay (K.rayGenOp i width height).1 (K.rayGenOp i width height).2) grid

/-- The kernel as `renderImage` receives it: a function of `start`, `end`, buffer and
grid that leaves a buffer (the accessor of an invocation dies with it). -/
def kernel (K : Collab RayT GridT Image) (width height : ℤ) :
    ℤ → ℤ → Image → GridT → Image :=
  fun start end_ image grid => (renderOp K width height start end_ image grid).image

/-- The timing loop `for (int i = 0; i < numIterations; ++i)` (lines 84-88), from pass
`i` on: each pass is one call of `renderImage` on the buffer the previous pass left.
Durations are wall-clock measurements and are not part of the state. -/
def passLoop (K : Collab RayT GridT Image) (grid : GridT) (numIterations width height : ℤ)
    (i : ℤ) (image : Image) : Image :=
  if i < numIterations then
    passLoop K grid numIterations width height (i + 1)
      (K.renderImage (kernel K width height) width height image grid)
  else image
termination_by (numIterations - i).toNat
decreasing_by omega

/-- The function `runOpenVDB(handle, numIterations, width, height, imageBuffer)`
(lines 25-94), with the grid exported from the handle and the kernel's captures given.
The result is what the function reports: `Except.error` for a reported failure,
`Except.ok` with the buffer handed to `saveImage` (line 92) otherwise. The source has no
check, no `throw` and no early `return`, so every path ends in `Except.ok`. -/
def runOpenVDB (K : Collab RayT GridT Image) (grid : GridT) (numIterations width height : ℤ)
    (imageBuffer : Image) : Except String Image :=
  Except.ok (passLoop K grid numIterations width height 0 imageBuffer)

/-! ## The loop variable in binary32

The march loop's variable is a `float` (line 73). Its body (lines 74-75) reads `t` and
does not assign it, so which iterations run is decided by `t0`, `t1` and the rounding of
`t += dt` alone. -/

/-- Nearest integer, ties to the even one. -/
def roundHalfEven (y : ℚ) : ℤ :=
  if y - ⌊y⌋ < 1 / 2 then ⌊y⌋
  else if 1 / 2 < y - ⌊y⌋ then ⌊y⌋ + 1
  else if ⌊y⌋ % 2 = 0 then ⌊y⌋ else ⌊y⌋ + 1

/-- Spacing of the binary32 numbers around `x`: a 24-bit significand in the binade of
`x`, the exponent not going below `-126` (subnormal range). -/
def ulpF32 (x : ℚ) : ℚ :=
  (2 : ℚ) ^ (max (Int.log 2 |x|) (-126) - 23)

/-- Rounding to binary32, to nearest with ties to even. Overflow to infinity is outside
the model: it needs a magnitude of about `2 ^ 128`, which `t + 0.5` does not reach for a
finite binary32 `t`. -/
def roundF32 (x : ℚ) : ℚ :=
  roundHalfEven (x / ulpF32 x) * ulpF32 x

/-- The binary32 sum `a + b`. -/
def fadd32 (a b : ℚ) : ℚ :=
  roundF32 (a + b)

/-- Control state of the march loop: the binary32 loop variable `t` and the log of the
coordinates read through the accessor so far. -/
structure LoopF32 where
  t : ℚ
  reads : List CoordT

/-- One iteration of the march loop on its control state: the read of line 74, then
`t += dt` in binary32. -/
def marchStepF32 (K : Collab RayT GridT Image) (iRay : RayT) (s : LoopF32) : LoopF32 :=
  { t := fadd32 s.t dt
    reads := s.reads ++ [CoordT.floor (K.point iRay s.t)] }

/-- The loop `for (float t = iRay.t0(); t < iRay.t1(); t += dt)` with a binary32 `t`,
run for at most `fuel` evaluations of the guard: `none` when the loop has not exited by
then. -/
def marchF32 (K : Collab RayT GridT Image) (iRay : RayT) : ℕ → LoopF32 → Option LoopF32
  | 0, _ => none
  | fuel + 1, s =>
    if s.t < K.t1 iRay then marchF32 K iRay fuel (marchStepF32 K iRay s) else some s

/-! ## Specification-side vocabulary -/

/-- Number of march steps for a clipped interval: `⌈(t1 - t0) / dt⌉`, zero when the
interval is empty or reversed. -/
def stepCount (K : Collab RayT GridT Image) (iRay : RayT) : ℕ :=
  ⌈(K.t1 iRay - K.t0 iRay) / dt⌉.toNat

/-- The grid value at the componentwise floor of the ray position at `t0 + k * dt`. -/
def sampleAt (K : Collab RayT GridT Image) (grid : GridT) (iRay : RayT) (k : ℕ) : ℚ :=
  K.getValue grid (CoordT.floor (K.point iRay (K.t0 iRay + k * dt)))

/-- The loop of a kernel invocation started at `start` reaches pixel `i`: every pixel
before it in the range was a hit (a miss returns from the kernel). -/
def reaches (K : Collab RayT GridT Image) (width height : ℤ) (grid : GridT)
    (start i : ℤ) : Prop :=
  ∀ j : ℤ, start ≤ j → j < i → (K.clip (indexRay K width height grid j)).isSome = true

/-- A list of slot writes applied to a buffer, first write first. -/
def applyWrites (writes : List (ℤ × ℚ)) (image : ℤ → ℚ) : ℤ → ℚ :=
  writes.foldl (fun img w => Function.update img w.1 w.2) image

/-! ## A worked scene

A small concrete instance of the collaborators, used to evaluate the kernel: pixel `i`
looks down the `z` axis from `(i, 0, 0)`; the box is hit by the pixels `1` and `2` only,
over the interval `[0, i / 2)`; the grid is a constant density. -/

/-- A ray of the worked scene: its origin and its parametric interval. -/
structure DemoRay where
  eye : Vec3T
  t0 : ℚ
  t1 : ℚ

/-- Collaborators of the worked scene, for a given compositor. The dispatcher makes one
kernel invocation over `[0, width * height)`. -/
def demoCollab {Image : Type} (comp : Image → ℤ → ℤ → ℤ → ℚ → ℚ → Image) :
    Collab DemoRay ℚ Image where
  rayGenOp := fun i _ _ => ({ x := i, y := 0, z := 0 }, { x := 0, y := 0, z := 1 })
  mkRay := fun eye _ => { eye := eye, t0 := 0, t1 := 0 }
  worldToIndex := fun r _ => r
  clip := fun r =>
    if 1 ≤ r.eye.x ∧ r.eye.x ≤ 2 then some { r with t0 := 0, t1 := r.eye.x / 2 } else none
  t0 := fun r => r.t0
  t1 := fun r => r.t1
  point := fun r t => { x := r.eye.x, y := r.eye.y, z := r.eye.z + t }
  getValue := fun d _ => d
  compositeOp := comp
  renderImage := fun kern width height image grid => kern 0 (width * height) image grid

/-- A compositor that records its calls: pixel index, value and alpha, in call order. -/
def logCompositeOp : List (ℤ × ℚ × ℚ) → ℤ → ℤ → ℤ → ℚ → ℚ → List (ℤ × ℚ × ℚ) :=
  fun calls i _ _ value alpha => calls ++ [(i, value, alpha)]

/-- A compositor that writes to slot `i` a value determined by `i`, `width`, `height`,
`value` and `alpha`. -/
def slotCompositeOp (pixel : ℤ → ℤ → ℤ → ℚ → ℚ → ℚ) :
    (ℤ → ℚ) → ℤ → ℤ → ℤ → ℚ → ℚ → (ℤ → ℚ) :=
  fun image i width height value alpha =>
    Function.update image i (pixel i width height value alpha)

/-- The clipped ray of pixel `i` of the worked scene, for `i = 1, 2`. -/
def demoRay (i : ℤ) : DemoRay :=
  { eye := { x := i, y := 0, z := 0 }, t0 := 0, t1 := (i : ℚ) / 2 }

/-- A ray of the worked scene whose interval is `[2 ^ 23, 2 ^ 23 + 1)`. -/
def stallRay : DemoRay :=
  { eye := { x := 1, y := 0, z := 0 }, t0 := 8388608, t1 := 8388609 }

/-- A ray of the worked scene whose interval is `[0.1f, 0.6f)`, both ends binary32
numbers: `0.1f = 13421773 / 2 ^ 27` and `0.6f = 5033165 / 2 ^ 23`. -/
def tenthRay : DemoRay :=
  { eye := { x := 1, y := 0, z := 0 }, t0 := 13421773 / 134217728, t1 := 5033165 / 8388608 }

theorem march_of_lt (K : Collab RayT GridT Image) (grid : GridT) (iRay : RayT)
    (s : MarchState) (h : s.t < K.t1 iRay) :
    march K grid iRay s = march K grid iRay (marchStep K grid iRay s) := by
  rw [march, if_pos h]

theorem march_of_not_lt (K : Collab RayT GridT Image) (grid : GridT) (iRay : RayT)
    (s : MarchState) (h : ¬ s.t < K.t1 iRay) : march K grid iRay s = s := by
  rw [march, if_neg h]

theorem marchStep_t (K : Collab RayT GridT Image) (grid : GridT) (iRay : RayT)
    (s : MarchState) : (marchStep K grid iRay s).t = s.t + dt := rfl

theorem iterate_marchStep_t (K : Collab RayT GridT Image) (grid : GridT) (iRay : RayT)
    (n : ℕ) (s : MarchState) : ((marchStep K grid iRay)^[n] s).t = s.t + n * dt := by
  induction n generalizing s with
  | zero => simp
  | succ n ih =>
    rw [Function.iterate_succ_apply, ih, marchStep_t]
    push_cast; ring

/-- The loop runs the body exactly `n` times when the guard holds at the first `n`
values of `t` and fails at the next one. -/
theorem march_eq_iterate (K : Collab RayT GridT Image) (grid : GridT) (iRay : RayT)
    (n : ℕ) (s : MarchState)
    (hlt : ∀ k : ℕ, k < n → s.t + k * dt < K.t1 iRay)
    (hge : ¬ s.t + n * dt < K.t1 iRay) :
    march K grid iRay s = (marchStep K grid iRay)^[n] s := by
  induction n generalizing s with
  | zero =>
    simp only [Function.iterate_zero, id_eq]
    apply march_of_not_lt
    simpa using hge
  | succ n ih =>
    have h0 : s.t < K.t1 iRay := by simpa using hlt 0 (Nat.succ_pos n)
    rw [march_of_lt K grid iRay s h0, Function.iterate_succ_apply]
    apply ih
    · intro k hk
      have := hlt (k + 1) (Nat.succ_lt_succ hk)
      rw [marchStep_t]
      push_cast at this
      linarith
    · rw [marchStep_t]
      push_cast at hge
      intro hc
      apply hge
      linarith

/-- The guard `t0 + k * dt < t1` holds exactly for the `k` below `stepCount`. -/
theorem lt_stepCount_iff (K : Collab RayT GridT Image) (iRay : RayT) (k : ℕ) :
    k < stepCount K iRay ↔ K.t0 iRay + k * dt < K.t1 iRay := by
  unfold stepCount
  rw [Int.lt_toNat, Int.lt_ceil]
  have hdt : (0 : ℚ) < dt := by unfold dt; norm_num
  rw [lt_div_iff₀ hdt]
  push_cast
  constructor <;> intro h <;> linarith

theorem lt_ceil_toNat_iff (t t1 : ℚ) (k : ℕ) :
    k < ⌈(t1 - t) / dt⌉.toNat ↔ t + k * dt < t1 := by
  rw [Int.lt_toNat, Int.lt_ceil]
  have hdt : (0 : ℚ) < dt := by unfold dt; norm_num
  rw [lt_div_iff₀ hdt]
  push_cast
  constructor <;> intro h <;> linarith

/-- The march is total and runs the body `⌈(t1 - t) / dt⌉` times from any state. -/
theorem march_eq_iterate_ceil (K : Collab RayT GridT Image) (grid : GridT) (iRay : RayT)
    (s : MarchState) :
    march K grid iRay s = (marchStep K grid iRay)^[⌈(K.t1 iRay - s.t) / dt⌉.toNat] s := by
  apply march_eq_iterate
  · intro k hk
    exact (lt_ceil_toNat_iff s.t (K.t1 iRay) k).mp hk
  · intro hc
    exact lt_irrefl _ ((lt_ceil_toNat_iff s.t (K.t1 iRay) _).mpr hc)

theorem iterate_marchStep_transmittance (K : Collab RayT GridT Image) (grid : GridT)
    (iRay : RayT) (n : ℕ) (s : MarchState) :
    ((marchStep K grid iRay)^[n] s).transmittance
      = s.transmittance * ∏ k in Finset.range n,
          (1 - K.getValue grid (CoordT.floor (K.point iRay (s.t + k * dt))) * (1 / 10) * dt) := by
  induction n with
  | zero => simp
  | succ n ih =>
    rw [Function.iterate_succ_apply', Finset.prod_range_succ, ← mul_assoc, ← ih]
    simp only [marchStep, iterate_marchStep_t]

theorem iterate_marchStep_reads (K : Collab RayT GridT Image) (grid : GridT)
    (iRay : RayT) (n : ℕ) (s : MarchState) :
    ((marchStep K grid iRay)^[n] s).reads
      = s.reads ++ (List.range n).map
          (fun k : ℕ => CoordT.floor (K.point iRay (s.t + k * dt))) := by
  induction n with
  | zero => simp
  | succ n ih =>
    rw [Function.iterate_succ_apply', List.range_succ, List.map_append, ← List.append_assoc,
      ← ih]
    simp only [marchStep, iterate_marchStep_t, List.map_cons, List.map_nil]

/-- Closed form of the march from `t0` with transmittance `1`. -/
theorem march_transmittance (K : Collab RayT GridT Image) (grid : GridT) (iRay : RayT)
    (rd : List CoordT) :
    (march K grid iRay { t := K.t0 iRay, transmittance := 1, reads := rd }).transmittance
      = ∏ k in Finset.range (stepCount K iRay), (1 - sampleAt K grid iRay k * (1 / 10) * dt) := by
  rw [march_eq_iterate_ceil, iterate_marchStep_transmittance]
  simp only [one_mul, stepCount, sampleAt]

theorem march_reads (K : Collab RayT GridT Image) (grid : GridT) (iRay : RayT)
    (rd : List CoordT) :
    (march K grid iRay { t := K.t0 iRay, transmittance := 1, reads := rd }).reads
      = rd ++ (List.range (stepCount K iRay)).map
          (fun k : ℕ => CoordT.floor (K.point iRay (K.t0 iRay + k * dt))) := by
  rw [march_eq_iterate_ceil, iterate_marchStep_reads]
  simp only [stepCount]

theorem opacity_eq (K : Collab RayT GridT Image) (grid : GridT) (iRay : RayT) :
    opacity K grid iRay
      = 1 - ∏ k in Finset.range (stepCount K iRay),
          (1 - sampleAt K grid iRay k * (1 / 10) * dt) := by
  rw [opacity, march_transmittance]

/-! ## The pixel loop -/

theorem renderLoop_of_not_lt (K : Collab RayT GridT Image) (width height end_ : ℤ)
    (grid : GridT) (i : ℤ) (s : Run Image) (h : ¬ i < end_) :
    renderLoop K width height end_ grid i s = s := by
  rw [renderLoop, if_neg h]

theorem renderLoop_miss (K : Collab RayT GridT Image) (width height end_ : ℤ)
    (grid : GridT) (i : ℤ) (s : Run Image) (h : i < end_)
    (hclip : K.clip (indexRay K width height grid i) = none) :
    renderLoop K width height end_ grid i s
      = { image := K.compositeOp s.image i width height 0 0, reads := s.reads } := by
  rw [renderLoop, if_pos h]
  simp only [indexRay] at hclip
  simp only [hclip]

theorem renderLoop_hit (K : Collab RayT GridT Image) (width height end_ : ℤ)
    (grid : GridT) (i : ℤ) (s : Run Image) (iRay : RayT) (h : i < end_)
    (hclip : K.clip (indexRay K width height grid i) = some iRay) :
    renderLoop K width height end_ grid i s
      = renderLoop K width height end_ grid (i + 1)
          { image := K.compositeOp s.image i width height 0 (opacity K grid iRay)
            reads := s.reads ++ (List.range (stepCount K iRay)).map
              (fun k : ℕ => CoordT.floor (K.point iRay (K.t0 iRay + k * dt))) } := by
  rw [renderLoop, if_pos h]
  simp only [indexRay] at hclip
  simp only [hclip, march_reads, opacity, march_transmittance]

theorem renderLoop_split (K : Collab RayT GridT Image) (width height end_ : ℤ)
    (grid : GridT) (start i : ℤ) (s : Run Image) (h1 : start ≤ i) (h2 : i ≤ end_)
    (hreach : reaches K width height grid start i) :
    renderLoop K width height end_ grid start s
      = renderLoop K width height end_ grid i (renderLoop K width height i grid start s) := by
  obtain ⟨n, hn⟩ : ∃ n : ℕ, n = (i - start).toNat := ⟨_, rfl⟩
  induction n generalizing start s with
  | zero =>
    have hs : start = i := by omega
    subst hs
    rw [renderLoop_of_not_lt K width height start grid start s (lt_irrefl _)]
  | succ n ih =>
    have hlt : start < i := by omega
    have hsome := hreach start le_rfl hlt
    obtain ⟨r, hr⟩ := Option.isSome_iff_exists.mp hsome
    rw [renderLoop_hit K width height end_ grid start s r (by omega) hr,
      renderLoop_hit K width height i grid start s r hlt hr]
    apply ih
    · omega
    · intro j hj1 hj2
      exact hreach j (by omega) hj2
    · omega

theorem renderOp_step_hit (K : Collab RayT GridT Image) (width height : ℤ)
    (grid : GridT) (image : Image) (start i : ℤ) (iRay : RayT) (h1 : start ≤ i)
    (hreach : reaches K width height grid start i)
    (hclip : K.clip (indexRay K width height grid i) = some iRay) :
    renderOp K width height start (i + 1) image grid
      = { image := K.compositeOp (renderOp K width height start i image grid).image
            i width height 0 (opacity K grid iRay)
          reads := (renderOp K width height start i image grid).reads
            ++ (List.range (stepCount K iRay)).map
              (fun k : ℕ => CoordT.floor (K.point iRay (K.t0 iRay + k * dt))) } := by
  unfold renderOp
  rw [renderLoop_split K width height (i + 1) grid start i _ h1 (by omega) hreach,
    renderLoop_hit K width height (i + 1) grid i _ iRay (by omega) hclip,
    renderLoop_of_not_lt K width height (i + 1) grid (i + 1) _ (lt_irrefl _)]

theorem stepCount_of_length (K : Collab RayT GridT Image) (iRay : RayT) (n : ℕ)
    (h : K.t1 iRay - K.t0 iRay = n * dt) : stepCount K iRay = n := by
  unfold stepCount
  have hdt : dt ≠ 0 := by unfold dt; norm_num
  rw [h, mul_div_assoc, div_self hdt, mul_one, Int.ceil_natCast, Int.toNat_natCast]

/-- In a medium that is `d` at every sampled coordinate the opacity is
`1 - (1 - d * 0.1 * 0.5) ^ n` for `n` steps. -/
theorem opacity_uniform (K : Collab RayT GridT Image) (grid : GridT) (iRay : RayT) (d : ℚ)
    (hd : ∀ k : ℕ, k < stepCount K iRay → sampleAt K grid iRay k = d) :
    opacity K grid iRay = 1 - (1 - d * (1 / 10) * dt) ^ stepCount K iRay := by
  rw [opacity_eq]
  congr 1
  rw [Finset.prod_congr rfl (fun k hk => by rw [hd k (Finset.mem_range.mp hk)])]
  simp

theorem renderOp_single_hit (K : Collab RayT GridT Image) (width height : ℤ)
    (grid : GridT) (image : Image) (i : ℤ) (iRay : RayT)
    (hclip : K.clip (indexRay K width height grid i) = some iRay) :
    (renderOp K width height i (i + 1) image grid).image
      = K.compositeOp image i width height 0 (opacity K grid iRay) := by
  unfold renderOp
  rw [renderLoop_hit K width height (i + 1) grid i _ iRay (by omega) hclip,
    renderLoop_of_not_lt K width height (i + 1) grid (i + 1) _ (lt_irrefl _)]

theorem stepCount_mono (K : Collab RayT GridT Image) (r1 r2 : RayT)
    (hlen : K.t1 r1 - K.t0 r1 ≤ K.t1 r2 - K.t0 r2) : stepCount K r1 ≤ stepCount K r2 := by
  unfold stepCount
  apply Int.toNat_le_toNat
  apply Int.ceil_mono
  apply div_le_div_of_nonneg_right hlen
  unfold dt; norm_num

/-! ## Slot writes and render passes -/

theorem applyWrites_cons (w : ℤ × ℚ) (writes : List (ℤ × ℚ)) (image : ℤ → ℚ) :
    applyWrites (w :: writes) image = applyWrites writes (Function.update image w.1 w.2) :=
  rfl

theorem applyWrites_append (l1 l2 : List (ℤ × ℚ)) (image : ℤ → ℚ) :
    applyWrites (l1 ++ l2) image = applyWrites l2 (applyWrites l1 image) := by
  simp [applyWrites, List.foldl_append]

/-- A write to slot `s` after the list hides any earlier write to `s`. -/
theorem update_applyWrites_update (writes : List (ℤ × ℚ)) (image : ℤ → ℚ) (s : ℤ)
    (v v0 : ℚ) :
    Function.update (applyWrites writes (Function.update image s v0)) s v
      = Function.update (applyWrites writes image) s v := by
  induction writes generalizing image v0 with
  | nil => simp [applyWrites]
  | cons w writes ih =>
    rw [applyWrites_cons, applyWrites_cons]
    by_cases hs : w.1 = s
    · rw [hs, Function.update_idem]
    · rw [Function.update_comm (Ne.symm hs), ih]

/-- Applying the same writes a second time changes nothing. -/
theorem applyWrites_idem (writes : List (ℤ × ℚ)) (image : ℤ → ℚ) :
    applyWrites writes (applyWrites writes image) = applyWrites writes image := by
  induction writes using List.reverseRecOn generalizing image with
  | nil => rfl
  | append_singleton writes w ih =>
    rw [applyWrites_append, applyWrites_append]
    show Function.update (applyWrites writes (Function.update (applyWrites writes image) w.1 w.2))
        w.1 w.2 = Function.update (applyWrites writes image) w.1 w.2
    rw [update_applyWrites_update, ih]

/-- With a compositor that writes slot `i`, the pixel loop from `i` is a list of slot
writes that does not depend on the buffer or on the read log it starts from. -/
theorem renderLoop_eq_applyWrites (K : Collab RayT GridT (ℤ → ℚ))
    (pixel : ℤ → ℤ → ℤ → ℚ → ℚ → ℚ) (width height end_ : ℤ) (grid : GridT)
    (hcomp : ∀ (img : ℤ → ℚ) (i w h : ℤ) (v a : ℚ),
      K.compositeOp img i w h v a = Function.update img i (pixel i w h v a))
    (i : ℤ) :
    ∃ writes : List (ℤ × ℚ), ∀ s : Run (ℤ → ℚ),
      (renderLoop K width height end_ grid i s).image = applyWrites writes s.image := by
  obtain ⟨n, hn⟩ : ∃ n : ℕ, n = (end_ - i).toNat := ⟨_, rfl⟩
  induction n generalizing i with
  | zero =>
    refine ⟨[], fun s => ?_⟩
    rw [renderLoop_of_not_lt K width height end_ grid i s (by omega)]
    rfl
  | succ n ih =>
    have hlt : i < end_ := by omega
    cases hclip : K.clip (indexRay K width height grid i) with
    | none =>
      refine ⟨[(i, pixel i width height 0 0)], fun s => ?_⟩
      rw [renderLoop_miss K width height end_ grid i s hlt hclip, hcomp]
      rfl
    | some iRay =>
      obtain ⟨writes, hw⟩ := ih (i + 1) (by omega)
      refine ⟨(i, pixel i width height 0 (opacity K grid iRay)) :: writes, fun s => ?_⟩
      rw [renderLoop_hit K width height end_ grid i s iRay hlt hclip, hw, hcomp]
      rfl

theorem passLoop_eq_iterate (K : Collab RayT GridT Image) (grid : GridT)
    (numIterations width height : ℤ) (i : ℤ) (image : Image) :
    passLoop K grid numIterations width height i image
      = (fun img => K.renderImage (kernel K width height) width height img grid)^[
          (numIterations - i).toNat] image := by
  obtain ⟨n, hn⟩ : ∃ n : ℕ, n = (numIterations - i).toNat := ⟨_, rfl⟩
  induction n generalizing i image with
  | zero =>
    rw [passLoop, if_neg (by omega), ← hn]
    rfl
  | succ n ih =>
    rw [passLoop, if_pos (by omega), ih (i + 1) _ (by omega), ← hn,
      Function.iterate_succ_apply]
    congr 2
    omega

theorem iterate_of_idem {α : Type} (f : α → α) (hf : ∀ x, f (f x) = f x) (n : ℕ) (x : α) :
    f^[n + 1] x = f x := by
  induction n with
  | zero => rfl
  | succ n ih => rw [Function.iterate_succ_apply', ih, hf]

/-! ## Uniform media and call logs -/

/-- After `n` iterations of the body from `t0` with transmittance `1`, in a medium that
is `d` at the first `n` sampled coordinates, the transmittance is the `n`-th power of
the per-step factor. -/
theorem iterate_transmittance_uniform (K : Collab RayT GridT Image) (grid : GridT)
    (iRay : RayT) (d : ℚ) (rd : List CoordT) (n : ℕ)
    (hu : ∀ k : ℕ, k < n → sampleAt K grid iRay k = d) :
    ((marchStep K grid iRay)^[n]
        { t := K.t0 iRay, transmittance := 1, reads := rd }).transmittance
      = (1 - d * (1 / 10) * (1 / 2)) ^ n := by
  rw [iterate_marchStep_transmittance, one_mul]
  have hfac : ∀ k ∈ Finset.range n,
      (1 - K.getValue grid (CoordT.floor (K.point iRay (K.t0 iRay + k * dt))) * (1 / 10) * dt)
        = 1 - d * (1 / 10) * (1 / 2) := by
    intro k hk
    have := hu k (Finset.mem_range.mp hk)
    unfold sampleAt at this
    rw [this]; rfl
  rw [Finset.prod_congr rfl hfac]
  simp

theorem log2_eq (x : ℚ) (e : ℤ) (h1 : (2 : ℚ) ^ e ≤ x) (h2 : x < (2 : ℚ) ^ (e + 1)) :
    Int.log 2 x = e := by
  have hx : 0 < x := lt_of_lt_of_le (by positivity) h1
  apply le_antisymm
  · have hlt := (Int.lt_zpow_iff_log_lt (b := 2) (by norm_num) hx (x := e + 1)).mp
      (by exact_mod_cast h2)
    omega
  · exact (Int.zpow_le_iff_le_log (b := 2) (by norm_num) hx).mp (by exact_mod_cast h1)

theorem ulpF32_eq (x : ℚ) (e : ℤ) (he : -126 ≤ e) (h1 : (2 : ℚ) ^ e ≤ |x|)
    (h2 : |x| < (2 : ℚ) ^ (e + 1)) : ulpF32 x = (2 : ℚ) ^ (e - 23) := by
  unfold ulpF32
  rw [log2_eq |x| e h1 h2, max_eq_left he]

theorem roundHalfEven_tie_even (y : ℚ) (z : ℤ) (hy : y = z + 1 / 2) (hz : z % 2 = 0) :
    roundHalfEven y = z := by
  have hf : ⌊y⌋ = z := by
    rw [Int.floor_eq_iff]; constructor <;> rw [hy] <;> norm_num
  unfold roundHalfEven
  rw [hf, hy]
  norm_num [hz]

theorem roundHalfEven_up (y : ℚ) (z : ℤ) (h1 : (z : ℚ) + 1 / 2 < y) (h2 : y < z + 1) :
    roundHalfEven y = z + 1 := by
  have hf : ⌊y⌋ = z := by
    rw [Int.floor_eq_iff]; constructor <;> linarith
  unfold roundHalfEven
  rw [hf, if_neg (by linarith), if_pos (by linarith)]

theorem roundHalfEven_intCast (y : ℚ) (z : ℤ) (hy : y = z) : roundHalfEven y = z := by
  unfold roundHalfEven
  rw [hy]
  simp

/-- At `2 ^ 23` the binary32 sum `t + 0.5` is `t` again: the tie goes to the even
significand. -/
theorem fadd32_stall : fadd32 8388608 dt = 8388608 := by
  unfold fadd32 roundF32 dt
  rw [ulpF32_eq _ 23 (by norm_num) (by norm_num [abs_of_pos]) (by norm_num [abs_of_pos]),
    roundHalfEven_tie_even _ 8388608 (by norm_num) (by decide)]
  norm_num

/-- The binary32 sum `0.1f + 0.5` is `0.6f`. -/
theorem fadd32_tenth : fadd32 (13421773 / 134217728) dt = 5033165 / 8388608 := by
  unfold fadd32 roundF32 dt
  rw [ulpF32_eq _ (-1) (by norm_num) (by norm_num [abs_of_pos]) (by norm_num [abs_of_pos]),
    roundHalfEven_up _ 10066329 (by norm_num) (by norm_num)]
  norm_num

theorem fadd32_zero_half : fadd32 0 dt = 1 / 2 := by
  unfold fadd32 roundF32 dt
  rw [ulpF32_eq _ (-1) (by norm_num) (by norm_num [abs_of_pos]) (by norm_num [abs_of_pos]),
    roundHalfEven_intCast _ 8388608 (by norm_num)]
  norm_num

theorem fadd32_half_half : fadd32 (1 / 2) dt = 1 := by
  unfold fadd32 roundF32 dt
  rw [ulpF32_eq _ 0 (by norm_num) (by norm_num [abs_of_pos]) (by norm_num [abs_of_pos]),
    roundHalfEven_intCast _ 8388608 (by norm_num)]
  norm_num

theorem marchF32_of_lt (K : Collab RayT GridT Image) (iRay : RayT) (fuel : ℕ) (s : LoopF32)
    (h : s.t < K.t1 iRay) :
    marchF32 K iRay (fuel + 1) s = marchF32 K iRay fuel (marchStepF32 K iRay s) := by
  rw [marchF32, if_pos h]

theorem marchF32_of_not_lt (K : Collab RayT GridT Image) (iRay : RayT) (fuel : ℕ)
    (s : LoopF32) (h : ¬ s.t < K.t1 iRay) : marchF32 K iRay (fuel + 1) s = some s := by
  rw [marchF32, if_neg h]

/-- A loop variable that the sum leaves unchanged below `t1` keeps the loop running
whatever the fuel. -/
theorem marchF32_stalled (K : Collab RayT GridT Image) (iRay : RayT) (t : ℚ)
    (hfix : fadd32 t dt = t) (hlt : t < K.t1 iRay) (fuel : ℕ) (rd : List CoordT) :
    marchF32 K iRay fuel { t := t, reads := rd } = none := by
  induction fuel generalizing rd with
  | zero => rfl
  | succ fuel ih =>
    rw [marchF32_of_lt K iRay fuel _ hlt]
    show marchF32 K iRay fuel
      { t := fadd32 t dt, reads := rd ++ [CoordT.floor (K.point iRay t)] } = none
    rw [hfix]
    exact ih _

/-- The loop exits after `n` iterations when the guard holds at the first `n` states and
fails at the next one, given more than `n` units of fuel. -/
theorem marchF32_eq_iterate (K : Collab RayT GridT Image) (iRay : RayT) (n fuel : ℕ)
    (s : LoopF32)
    (hlt : ∀ k : ℕ, k < n → ((marchStepF32 K iRay)^[k] s).t < K.t1 iRay)
    (hge : ¬ ((marchStepF32 K iRay)^[n] s).t < K.t1 iRay) (hfuel : n < fuel) :
    marchF32 K iRay fuel s = some ((marchStepF32 K iRay)^[n] s) := by
  induction n generalizing s fuel with
  | zero =>
    obtain ⟨f, rfl⟩ : ∃ f, fuel = f + 1 := ⟨fuel - 1, by omega⟩
    exact marchF32_of_not_lt K iRay f s hge
  | succ n ih =>
    obtain ⟨f, rfl⟩ : ∃ f, fuel = f + 1 := ⟨fuel - 1, by omega⟩
    rw [marchF32_of_lt K iRay f s (hlt 0 (Nat.succ_pos n)), Function.iterate_succ_apply]
    apply ih
    · intro k hk
      have := hlt (k + 1) (Nat.succ_lt_succ hk)
      rwa [Function.iterate_succ_apply] at this
    · rwa [Function.iterate_succ_apply] at hge
    · omega

theorem iterate_marchStepF32_reads_length (K : Collab RayT GridT Image) (iRay : RayT)
    (n : ℕ) (s : LoopF32) :
    ((marchStepF32 K iRay)^[n] s).reads.length = s.reads.length + n := by
  induction n with
  | zero => rfl
  | succ n ih =>
    rw [Function.iterate_succ_apply']
    simp only [marchStepF32, List.length_append, List.length_singleton, ih]
    omega

/-- While every sum is exact, the binary32 loop variable after `k` iterations is
`t + k * dt`. -/
theorem iterate_marchStepF32_t (K : Collab RayT GridT Image) (iRay : RayT) (n : ℕ)
    (s : LoopF32)
    (hexact : ∀ k : ℕ, k < n → fadd32 (s.t + k * dt) dt = s.t + k * dt + dt) :
    ∀ k : ℕ, k ≤ n → ((marchStepF32 K iRay)^[k] s).t = s.t + k * dt := by
  intro k
  induction k with
  | zero => intro _; simp
  | succ k ih =>
    intro hk
    rw [Function.iterate_succ_apply']
    show fadd32 ((marchStepF32 K iRay)^[k] s).t dt = _
    rw [ih (by omega), hexact k (by omega)]
    push_cast; ring

/-! ## Facts about the worked scene -/

theorem demo_clip_one {Image : Type} (comp : Image → ℤ → ℤ → ℤ → ℚ → ℚ → Image)
    (width height : ℤ) (d : ℚ) :
    (demoCollab comp).clip (indexRay (demoCollab comp) width height d 1)
      = some (demoRay 1) := by
  simp [indexRay, demoCollab, demoRay]

theorem demo_clip_two {Image : Type} (comp : Image → ℤ → ℤ → ℤ → ℚ → ℚ → Image)
    (width height : ℤ) (d : ℚ) :
    (demoCollab comp).clip (indexRay (demoCollab comp) width height d 2)
      = some (demoRay 2) := by
  simp [indexRay, demoCollab, demoRay]

theorem demo_clip_zero {Image : Type} (comp : Image → ℤ → ℤ → ℤ → ℚ → ℚ → Image)
    (width height : ℤ) (d : ℚ) :
    (demoCollab comp).clip (indexRay (demoCollab comp) width height d 0) = none := by
  simp [indexRay, demoCollab]

theorem demo_clip_three {Image : Type} (comp : Image → ℤ → ℤ → ℤ → ℚ → ℚ → Image)
    (width height : ℤ) (d : ℚ) :
    (demoCollab comp).clip (indexRay (demoCollab comp) width height d 3) = none := by
  simp [indexRay, demoCollab]
  norm_num

theorem demo_reaches {Image : Type} (comp : Image → ℤ → ℤ → ℤ → ℚ → ℚ → Image)
    (width height : ℤ) (d : ℚ) (i : ℤ) (hi : i ≤ 3) :
    reaches (demoCollab comp) width height d 1 i := by
  intro j hj1 hj2
  have h12 : j = 1 ∨ j = 2 := by omega
  rcases h12 with rfl | rfl
  · rw [demo_clip_one]; rfl
  · rw [demo_clip_two]; rfl

theorem demo_stepCount_one {Image : Type} (comp : Image → ℤ → ℤ → ℤ → ℚ → ℚ → Image) :
    stepCount (demoCollab comp) (demoRay 1) = 1 := by
  apply stepCount_of_length
  simp [demoCollab, demoRay, dt]

theorem demo_stepCount_two {Image : Type} (comp : Image → ℤ → ℤ → ℤ → ℚ → ℚ → Image) :
    stepCount (demoCollab comp) (demoRay 2) = 2 := by
  apply stepCount_of_length
  simp [demoCollab, demoRay, dt]

theorem demo_opacity {Image : Type} (comp : Image → ℤ → ℤ → ℤ → ℚ → ℚ → Image)
    (d : ℚ) (r : DemoRay) :
    opacity (demoCollab comp) d r
      = 1 - (1 - d * (1 / 10) * dt) ^ stepCount (demoCollab comp) r := by
  apply opacity_uniform
  intro k _
  rfl

/-! ## The claims -/

/-- C2. In a kernel invocation over `[start, end)` whose loop reaches a pixel `i` of the
range, if the clip of the index-space ray of `i` reports no intersection, the compositor
is called for `i` with value `0` and alpha `0` on the image left by the pixels before
`i`, and the accessor's read log is the one those pixels left: the grid is not sampled
for `i`. -/
theorem renderOp_miss_composites_zero (K : Collab RayT GridT Image) (width height : ℤ)
    (grid : GridT) (image : Image) (start end_ i : ℤ) (h1 : start ≤ i) (h2 : i < end_)
    (hreach : reaches K width height grid start i)
    (hmiss : K.clip (indexRay K width height grid i) = none) :
    renderOp K width height start end_ image grid
      = { image := K.compositeOp (renderOp K width height start i image grid).image
            i width height 0 0
          reads := (renderOp K width height start i image grid).reads } := by
  unfold renderOp
  rw [renderLoop_split K width height end_ grid start i _ h1 (le_of_lt h2) hreach,
    renderLoop_miss K width height end_ grid i _ h2 hmiss]

/-- C3. When the ray of pixel `i` clips to `[t0, t1)`, a kernel invocation whose loop
reaches `i` composites for it the value `0` and the alpha
`1 - ∏ k < n, (1 - sigma_k * 0.1 * 0.5)`, where `sigma_k` is the grid value at the
componentwise floor of the ray position at `t0 + k * 0.5` and `n` is the number of
`k ≥ 0` with `t0 + k * 0.5 < t1`. -/
theorem renderOp_hit_composites_product (K : Collab RayT GridT Image) (width height : ℤ)
    (grid : GridT) (image : Image) (start i : ℤ) (iRay : RayT) (h1 : start ≤ i)
    (hreach : reaches K width height grid start i)
    (hclip : K.clip (indexRay K width height grid i) = some iRay) :
    ∃ n : ℕ, (∀ k : ℕ, k < n ↔ K.t0 iRay + k * (1 / 2) < K.t1 iRay) ∧
      (renderOp K width height start (i + 1) image grid).image
        = K.compositeOp (renderOp K width height start i image grid).image i width height 0
            (1 - ∏ k in Finset.range n,
              (1 - K.getValue grid (CoordT.floor (K.point iRay (K.t0 iRay + k * (1 / 2))))
                * (1 / 10) * (1 / 2))) := by
  refine ⟨stepCount K iRay, fun k => lt_stepCount_iff K iRay k, ?_⟩
  rw [renderOp_step_hit K width height grid image start i iRay h1 hreach hclip, opacity_eq]
  rfl

/-- In exact arithmetic, for a clipped interval with `t0 ≤ t1` the march loop equals
`⌈(t1 - t0) / 0.5⌉` iterations of its body, adds exactly that many grid reads to the log
(none when `t0 = t1`), ends with the guard `t < t1` false, and every iteration leaves
`t` strictly larger. This is a fact about `march`, whose loop variable is not rounded. -/
theorem march_runs_ceil_steps (K : Collab RayT GridT Image) (grid : GridT) (iRay : RayT)
    (rd : List CoordT) (h : K.t0 iRay ≤ K.t1 iRay) :
    march K grid iRay { t := K.t0 iRay, transmittance := 1, reads := rd }
        = (marchStep K grid iRay)^[⌈(K.t1 iRay - K.t0 iRay) / (1 / 2)⌉.toNat]
            { t := K.t0 iRay, transmittance := 1, reads := rd }
      ∧ (((march K grid iRay
            { t := K.t0 iRay, transmittance := 1, reads := rd }).reads.length : ℤ)
          = rd.length + ⌈(K.t1 iRay - K.t0 iRay) / (1 / 2)⌉)
      ∧ ¬ ((march K grid iRay { t := K.t0 iRay, transmittance := 1, reads := rd }).t
            < K.t1 iRay)
      ∧ (∀ s : MarchState, s.t < (marchStep K grid iRay s).t)
      ∧ (K.t0 iRay = K.t1 iRay →
          (march K grid iRay { t := K.t0 iRay, transmittance := 1, reads := rd }).reads = rd) := by
  have hceil : 0 ≤ ⌈(K.t1 iRay - K.t0 iRay) / dt⌉ := by
    apply Int.ceil_nonneg
    apply div_nonneg (by linarith)
    unfold dt; norm_num
  have hcount : ((stepCount K iRay : ℕ) : ℤ) = ⌈(K.t1 iRay - K.t0 iRay) / dt⌉ :=
    Int.toNat_of_nonneg hceil
  refine ⟨march_eq_iterate_ceil K grid iRay _, ?_, ?_, ?_, ?_⟩
  · rw [march_reads]
    simp only [List.length_append, List.length_map, List.length_range]
    push_cast
    rw [hcount]; rfl
  · rw [march_eq_iterate_ceil, iterate_marchStep_t]
    intro hc
    exact lt_irrefl _ ((lt_ceil_toNat_iff (K.t0 iRay) (K.t1 iRay) _).mpr hc)
  · intro s
    rw [marchStep_t]
    unfold dt; linarith
  · intro heq
    rw [march_reads]
    have : stepCount K iRay = 0 := by
      unfold stepCount
      rw [heq]; simp
    rw [this]; simp

/-- Witness for C2 in the worked scene: the invocation over `[1, 4)` reaches pixel `3`,
whose ray misses. -/
theorem renderOp_miss_composites_zero_witness :
    renderOp (demoCollab logCompositeOp) 4 1 1 4 [] 1
      = { image := logCompositeOp (renderOp (demoCollab logCompositeOp) 4 1 1 3 [] 1).image
            3 4 1 0 0
          reads := (renderOp (demoCollab logCompositeOp) 4 1 1 3 [] 1).reads } :=
  renderOp_miss_composites_zero (demoCollab logCompositeOp) 4 1 1 [] 1 4 3
    (by decide) (by decide) (demo_reaches logCompositeOp 4 1 1 3 (by decide))
    (demo_clip_three logCompositeOp 4 1 1)

/-- Witness for C3 in the worked scene: pixel `2` of the invocation over `[1, 3)`. -/
theorem renderOp_hit_composites_product_witness :
    ∃ n : ℕ, (∀ k : ℕ, k < n ↔
        (demoCollab logCompositeOp).t0 (demoRay 2) + k * (1 / 2)
          < (demoCollab logCompositeOp).t1 (demoRay 2)) ∧
      (renderOp (demoCollab logCompositeOp) 4 1 1 (2 + 1) [] 1).image
        = (demoCollab logCompositeOp).compositeOp
            (renderOp (demoCollab logCompositeOp) 4 1 1 2 [] 1).image 2 4 1 0
            (1 - ∏ k in Finset.range n,
              (1 - (demoCollab logCompositeOp).getValue 1
                  (CoordT.floor ((demoCollab logCompositeOp).point (demoRay 2)
                    ((demoCollab logCompositeOp).t0 (demoRay 2) + k * (1 / 2))))
                * (1 / 10) * (1 / 2))) :=
  renderOp_hit_composites_product (demoCollab logCompositeOp) 4 1 1 [] 1 2 (demoRay 2)
    (by decide) (demo_reaches logCompositeOp 4 1 1 2 (by decide))
    (demo_clip_two logCompositeOp 4 1 1)

/-- The exact-arithmetic march on the clipped ray of pixel `2` of the worked scene, over
`[0, 1)`. -/
theorem march_runs_ceil_steps_witness :
    march (demoCollab logCompositeOp) 1 (demoRay 2)
        { t := (demoCollab logCompositeOp).t0 (demoRay 2), transmittance := 1, reads := [] }
        = (marchStep (demoCollab logCompositeOp) 1 (demoRay 2))^[⌈((demoCollab logCompositeOp).t1
              (demoRay 2) - (demoCollab logCompositeOp).t0 (demoRay 2)) / (1 / 2)⌉.toNat]
            { t := (demoCollab logCompositeOp).t0 (demoRay 2), transmittance := 1, reads := [] }
      ∧ (((march (demoCollab logCompositeOp) 1 (demoRay 2)
            { t := (demoCollab logCompositeOp).t0 (demoRay 2), transmittance := 1,
              reads := [] }).reads.length : ℤ)
          = ([] : List CoordT).length + ⌈((demoCollab logCompositeOp).t1 (demoRay 2)
              - (demoCollab logCompositeOp).t0 (demoRay 2)) / (1 / 2)⌉)
      ∧ ¬ ((march (demoCollab logCompositeOp) 1 (demoRay 2)
            { t := (demoCollab logCompositeOp).t0 (demoRay 2), transmittance := 1,
              reads := [] }).t < (demoCollab logCompositeOp).t1 (demoRay 2))
      ∧ (∀ s : MarchState, s.t < (marchStep (demoCollab logCompositeOp) 1 (demoRay 2) s).t)
      ∧ ((demoCollab logCompositeOp).t0 (demoRay 2) = (demoCollab logCompositeOp).t1 (demoRay 2) →
          (march (demoCollab logCompositeOp) 1 (demoRay 2)
            { t := (demoCollab logCompositeOp).t0 (demoRay 2), transmittance := 1,
              reads := [] }).reads = []) :=
  march_runs_ceil_steps (demoCollab logCompositeOp) 1 (demoRay 2) []
    (by simp [demoCollab, demoRay])

/-- C1, evaluated. In the worked scene the ray of pixel `0` misses and the rays of
pixels `1` and `2` hit; the invocation over `[0, 3)` calls the compositor for pixel `0`
only and reads nothing: the `return` of line 68 leaves the kernel, so the pixels `1` and
`2` of the range are never composited. -/
theorem renderOp_skips_after_miss :
    renderOp (demoCollab logCompositeOp) 3 1 0 3 [] 1
      = { image := [(0, 0, 0)], reads := [] } := by
  unfold renderOp
  rw [renderLoop_miss _ 3 1 3 1 0 _ (by decide) (demo_clip_zero logCompositeOp 3 1 1)]
  rfl

/-- C4, evaluated. In the worked scene, with a compositor that stores alpha in slot `i`
and an image that is `0` everywhere, the invocation over `[0, 1)` followed by the one
over `[1, 3)` leaves `1/20` in slot `1`, while the single invocation over `[0, 3)`
returns at the miss of pixel `0` and leaves slot `1` at `0`. -/
theorem renderOp_chunks_differ :
    (renderOp (demoCollab (slotCompositeOp (fun _ _ _ _ alpha => alpha))) 3 1 1 3
        (renderOp (demoCollab (slotCompositeOp (fun _ _ _ _ alpha => alpha))) 3 1 0 1
          (fun _ => 0) 1).image 1).image 1 = 1 / 20
      ∧ (renderOp (demoCollab (slotCompositeOp (fun _ _ _ _ alpha => alpha))) 3 1 0 3
          (fun _ => 0) 1).image 1 = 0 := by
  have e : (1 : ℤ) + 1 = 2 := rfl
  constructor
  · unfold renderOp
    rw [renderLoop_hit _ 3 1 3 1 1 _ (demoRay 1) (by decide) (demo_clip_one _ 3 1 1), e,
      renderLoop_hit _ 3 1 3 1 2 _ (demoRay 2) (by decide) (demo_clip_two _ 3 1 1),
      renderLoop_of_not_lt _ 3 1 3 1 (2 + 1) _ (by decide)]
    simp only [demo_opacity, demo_stepCount_one]
    simp [demoCollab, slotCompositeOp, Function.update, dt]
    norm_num
  · unfold renderOp
    rw [renderLoop_miss _ 3 1 3 1 0 _ (by decide) (demo_clip_zero _ 3 1 1)]
    simp [demoCollab, slotCompositeOp, Function.update]

/-- C5 as stated fails. In the worked scene with the grid value `-20` everywhere, the one
density sampled for pixel `1` satisfies `d * 0.1 * 0.5 < 1`, and the kernel composites
the alpha `-1` for it. -/
theorem opacity_negative_for_negative_density :
    (∀ k : ℕ, k < stepCount (demoCollab logCompositeOp) (demoRay 1) →
        sampleAt (demoCollab logCompositeOp) (-20) (demoRay 1) k * (1 / 10) * (1 / 2) < 1)
      ∧ (demoCollab logCompositeOp).clip (indexRay (demoCollab logCompositeOp) 2 1 (-20) 1)
          = some (demoRay 1)
      ∧ (renderOp (demoCollab logCompositeOp) 2 1 1 (1 + 1) [] (-20)).image = [(1, 0, -1)]
      ∧ ¬ (0 ≤ opacity (demoCollab logCompositeOp) (-20) (demoRay 1)) := by
  refine ⟨?_, demo_clip_one _ 2 1 (-20), ?_, ?_⟩
  · intro k _
    simp [sampleAt, demoCollab]
    norm_num
  · rw [renderOp_single_hit _ 2 1 (-20) [] 1 (demoRay 1) (demo_clip_one _ 2 1 (-20)),
      demo_opacity, demo_stepCount_one]
    simp [demoCollab, logCompositeOp, dt]
    norm_num
  · rw [demo_opacity, demo_stepCount_one]
    unfold dt; norm_num

/-- C5, amended. For a pixel whose ray clips to `iRay`, if every density `d` sampled
along the march satisfies `0 ≤ d` and `d * 0.1 * 0.5 < 1`, the alpha the kernel
composites for the pixel lies in `[0, 1]`. -/
theorem opacity_in_unit_interval (K : Collab RayT GridT Image) (width height : ℤ)
    (grid : GridT) (image : Image) (i : ℤ) (iRay : RayT)
    (hclip : K.clip (indexRay K width height grid i) = some iRay)
    (hd : ∀ k : ℕ, k < stepCount K iRay →
      0 ≤ sampleAt K grid iRay k ∧ sampleAt K grid iRay k * (1 / 10) * (1 / 2) < 1) :
    (renderOp K width height i (i + 1) image grid).image
        = K.compositeOp image i width height 0 (opacity K grid iRay)
      ∧ 0 ≤ opacity K grid iRay ∧ opacity K grid iRay ≤ 1 := by
  refine ⟨renderOp_single_hit K width height grid image i iRay hclip, ?_, ?_⟩
  · rw [opacity_eq, sub_nonneg]
    apply Finset.prod_le_one
    · intro k hk
      have := (hd k (Finset.mem_range.mp hk)).2
      unfold dt; linarith
    · intro k hk
      have := (hd k (Finset.mem_range.mp hk)).1
      unfold dt; linarith
  · rw [opacity_eq, sub_le_self_iff]
    apply Finset.prod_nonneg
    intro k hk
    have := (hd k (Finset.mem_range.mp hk)).2
    unfold dt; linarith

/-- Witness for the amended C5 in the worked scene: pixel `1`, grid value `1`. -/
theorem opacity_in_unit_interval_witness :
    (renderOp (demoCollab logCompositeOp) 2 1 1 (1 + 1) [] 1).image
        = (demoCollab logCompositeOp).compositeOp [] 1 2 1 0
            (opacity (demoCollab logCompositeOp) 1 (demoRay 1))
      ∧ 0 ≤ opacity (demoCollab logCompositeOp) 1 (demoRay 1)
      ∧ opacity (demoCollab logCompositeOp) 1 (demoRay 1) ≤ 1 :=
  opacity_in_unit_interval (demoCollab logCompositeOp) 2 1 1 [] 1 (demoRay 1)
    (demo_clip_one logCompositeOp 2 1 1)
    (by
      intro k _
      simp [sampleAt, demoCollab]
      norm_num)

/-- C9. If the ray of pixel `i` clips to an interval of length `2R` with `4R` a positive
integer `m`, and the grid value is `1` at every sampled coordinate, the alpha composited
for the pixel is `1 - (1 - 0.05) ^ m`, with `m = 2R / 0.5` steps. (Positivity of `m` is
not needed: for `m = 0` the alpha is `0`.) -/
theorem uniform_sphere_opacity (K : Collab RayT GridT Image) (width height : ℤ)
    (grid : GridT) (image : Image) (i : ℤ) (iRay : RayT) (R : ℚ) (m : ℕ)
    (hR : 4 * R = m)
    (hclip : K.clip (indexRay K width height grid i) = some iRay)
    (hlen : K.t1 iRay - K.t0 iRay = 2 * R)
    (hone : ∀ k : ℕ, k < m → sampleAt K grid iRay k = 1) :
    (renderOp K width height i (i + 1) image grid).image
        = K.compositeOp image i width height 0 (1 - (1 - 5 / 100) ^ m)
      ∧ (m : ℚ) = 2 * R / (1 / 2) := by
  have hcount : stepCount K iRay = m := by
    apply stepCount_of_length
    rw [hlen]; unfold dt; linarith
  refine ⟨?_, by linarith⟩
  rw [renderOp_single_hit K width height grid image i iRay hclip,
    opacity_uniform K grid iRay 1 (by rw [hcount]; exact hone), hcount]
  congr 3
  unfold dt; norm_num

/-- Witness for C9 in the worked scene: pixel `2` clips to `[0, 1)`, so `R = 1/2`. -/
theorem uniform_sphere_opacity_witness :
    (renderOp (demoCollab logCompositeOp) 3 1 2 (2 + 1) [] 1).image
        = (demoCollab logCompositeOp).compositeOp [] 2 3 1 0 (1 - (1 - 5 / 100) ^ 2)
      ∧ ((2 : ℕ) : ℚ) = 2 * (1 / 2) / (1 / 2) :=
  uniform_sphere_opacity (demoCollab logCompositeOp) 3 1 1 [] 2 (demoRay 2) (1 / 2) 2
    (by norm_num) (demo_clip_two logCompositeOp 3 1 1)
    (by simp [demoCollab, demoRay]) (fun _ _ => rfl)

/-- C10 as stated fails. In the worked scene with the non-negative grid value `30`
everywhere, the rays of pixels `1` and `2` start at the same `t0` and have lengths
`1/2 ≤ 1`, yet the opacity of the shorter one is `3/2` and that of the longer one `3/4`. -/
theorem opacity_not_monotone_for_large_density :
    (demoCollab logCompositeOp).t0 (demoRay 1) = (demoCollab logCompositeOp).t0 (demoRay 2)
      ∧ (demoCollab logCompositeOp).t1 (demoRay 1) - (demoCollab logCompositeOp).t0 (demoRay 1)
          ≤ (demoCollab logCompositeOp).t1 (demoRay 2) - (demoCollab logCompositeOp).t0 (demoRay 2)
      ∧ (∀ c : CoordT, (demoCollab logCompositeOp).getValue 30 c = 30)
      ∧ opacity (demoCollab logCompositeOp) 30 (demoRay 1) = 3 / 2
      ∧ opacity (demoCollab logCompositeOp) 30 (demoRay 2) = 3 / 4
      ∧ ¬ (opacity (demoCollab logCompositeOp) 30 (demoRay 1)
            ≤ opacity (demoCollab logCompositeOp) 30 (demoRay 2)) := by
  have h1 : opacity (demoCollab logCompositeOp) 30 (demoRay 1) = 3 / 2 := by
    rw [demo_opacity, demo_stepCount_one]
    unfold dt; norm_num
  have h2 : opacity (demoCollab logCompositeOp) 30 (demoRay 2) = 3 / 4 := by
    rw [demo_opacity, demo_stepCount_two]
    unfold dt; norm_num
  refine ⟨rfl, ?_, fun _ => rfl, h1, h2, ?_⟩
  · simp [demoCollab, demoRay]
    norm_num
  · rw [h1, h2]
    norm_num

/-- C10, amended. In a medium whose grid value is the same density `d` at every sampled
coordinate, with `0 ≤ d` and `d * 0.1 * 0.5 ≤ 1`, for two clipped intervals that start
at the same `t0` and have lengths `L1 ≤ L2`, the step counts satisfy `n1 ≤ n2` and the
opacity of the longer interval is at least that of the shorter one. (The common start is
not needed: only the lengths enter.) -/
theorem opacity_monotone_in_length (K : Collab RayT GridT Image) (grid : GridT)
    (r1 r2 : RayT) (d : ℚ) (hd0 : 0 ≤ d) (hd1 : d * (1 / 10) * (1 / 2) ≤ 1)
    (hlen : K.t1 r1 - K.t0 r1 ≤ K.t1 r2 - K.t0 r2)
    (hu1 : ∀ k : ℕ, k < stepCount K r1 → sampleAt K grid r1 k = d)
    (hu2 : ∀ k : ℕ, k < stepCount K r2 → sampleAt K grid r2 k = d) :
    stepCount K r1 ≤ stepCount K r2 ∧ opacity K grid r1 ≤ opacity K grid r2 := by
  have hn := stepCount_mono K r1 r2 hlen
  refine ⟨hn, ?_⟩
  rw [opacity_uniform K grid r1 d hu1, opacity_uniform K grid r2 d hu2]
  apply sub_le_sub_left
  apply pow_le_pow_of_le_one _ _ hn
  · unfold dt; linarith
  · unfold dt; nlinarith

/-- Witness for the amended C10 in the worked scene: grid value `1`, pixels `1` and `2`. -/
theorem opacity_monotone_in_length_witness :
    stepCount (demoCollab logCompositeOp) (demoRay 1)
        ≤ stepCount (demoCollab logCompositeOp) (demoRay 2)
      ∧ opacity (demoCollab logCompositeOp) 1 (demoRay 1)
        ≤ opacity (demoCollab logCompositeOp) 1 (demoRay 2) :=
  opacity_monotone_in_length (demoCollab logCompositeOp) 1 (demoRay 1) (demoRay 2) 1
    (by norm_num) (by norm_num)
    (by simp [demoCollab, demoRay]; norm_num) (fun _ _ => rfl) (fun _ _ => rfl)

/-- C6 as stated fails. With zero passes, zero width and zero height, and also with one
pass over a zero-sized image, `runOpenVDB` reports no failure: it returns normally with
the buffer it was given. -/
theorem runOpenVDB_accepts_invalid_configuration :
    runOpenVDB (demoCollab logCompositeOp) 1 0 0 0 [] = Except.ok []
      ∧ runOpenVDB (demoCollab logCompositeOp) 1 1 0 0 [] = Except.ok [] := by
  constructor
  · unfold runOpenVDB
    rw [passLoop, if_neg (by decide)]
  · unfold runOpenVDB
    rw [passLoop, if_pos (by decide), passLoop, if_neg (by decide)]
    show Except.ok (renderOp (demoCollab logCompositeOp) 0 0 0 (0 * 0) [] 1).image = Except.ok []
    unfold renderOp
    rw [renderLoop_of_not_lt _ 0 0 (0 * 0) 1 0 _ (by decide)]

/-- C6, amended. `runOpenVDB` validates nothing and never reports a failure: for every
`numIterations`, `width` and `height` it returns normally with the buffer left by
`max numIterations 0` successive calls of `renderImage` with these dimensions; when the
number of passes is below `1` no pass runs and the buffer is returned as given. -/
theorem runOpenVDB_never_fails (K : Collab RayT GridT Image) (grid : GridT)
    (numIterations width height : ℤ) (imageBuffer : Image) :
    runOpenVDB K grid numIterations width height imageBuffer
        = Except.ok ((fun img => K.renderImage (kernel K width height) width height img grid)^[
            numIterations.toNat] imageBuffer)
      ∧ runOpenVDB K grid (min numIterations 0) width height imageBuffer
        = Except.ok imageBuffer := by
  constructor
  · unfold runOpenVDB
    rw [passLoop_eq_iterate, sub_zero]
  · unfold runOpenVDB
    rw [passLoop, if_neg (by omega)]

/-- C8. With a compositor that writes to slot `i` a value determined by `i`, `width`,
`height`, value and alpha, and a render pass that is the kernel over
`[0, width * height)`: a second pass on the buffer left by the first leaves it unchanged,
and for every `k ≥ 1` the buffer after `k` passes of the loop of `runOpenVDB` is the
buffer after one pass. -/
theorem passes_produce_same_image (K : Collab RayT GridT (ℤ → ℚ))
    (pixel : ℤ → ℤ → ℤ → ℚ → ℚ → ℚ) (grid : GridT) (width height : ℤ) (image : ℤ → ℚ)
    (k : ℤ)
    (hcomp : ∀ (img : ℤ → ℚ) (i w h : ℤ) (v a : ℚ),
      K.compositeOp img i w h v a = Function.update img i (pixel i w h v a))
    (hpass : ∀ (kern : ℤ → ℤ → (ℤ → ℚ) → GridT → (ℤ → ℚ)) (w h : ℤ) (img : ℤ → ℚ) (g : GridT),
      K.renderImage kern w h img g = kern 0 (w * h) img g)
    (hk : 1 ≤ k) :
    (renderOp K width height 0 (width * height)
        (renderOp K width height 0 (width * height) image grid).image grid).image
        = (renderOp K width height 0 (width * height) image grid).image
      ∧ passLoop K grid k width height 0 image = passLoop K grid 1 width height 0 image
      ∧ runOpenVDB K grid k width height image = runOpenVDB K grid 1 width height image := by
  obtain ⟨writes, hw⟩ :=
    renderLoop_eq_applyWrites K pixel width height (width * height) grid hcomp 0
  have hkern : ∀ img : ℤ → ℚ,
      (renderOp K width height 0 (width * height) img grid).image = applyWrites writes img :=
    fun img => hw { image := img, reads := [] }
  have hpassfn : (fun img => K.renderImage (kernel K width height) width height img grid)
      = applyWrites writes := by
    funext img
    rw [hpass]
    exact hkern img
  have hloop : passLoop K grid k width height 0 image
      = passLoop K grid 1 width height 0 image := by
    rw [passLoop_eq_iterate, passLoop_eq_iterate, hpassfn]
    obtain ⟨n, hn⟩ : ∃ n : ℕ, (k - 0).toNat = n + 1 := ⟨(k - 0).toNat - 1, by omega⟩
    rw [hn, iterate_of_idem _ (applyWrites_idem writes)]
    rfl
  refine ⟨?_, hloop, ?_⟩
  · rw [hkern, hkern, applyWrites_idem]
  · unfold runOpenVDB
    rw [hloop]

/-- Witness for C8 in the worked scene: a `3 × 1` image, a compositor that stores alpha,
three passes. -/
theorem passes_produce_same_image_witness :
    (renderOp (demoCollab (slotCompositeOp (fun _ _ _ _ alpha => alpha))) 3 1 0 (3 * 1)
        (renderOp (demoCollab (slotCompositeOp (fun _ _ _ _ alpha => alpha))) 3 1 0 (3 * 1)
          (fun _ => 7) 1).image 1).image
        = (renderOp (demoCollab (slotCompositeOp (fun _ _ _ _ alpha => alpha))) 3 1 0 (3 * 1)
            (fun _ => 7) 1).image
      ∧ passLoop (demoCollab (slotCompositeOp (fun _ _ _ _ alpha => alpha))) 1 3 3 1 0
          (fun _ => 7)
        = passLoop (demoCollab (slotCompositeOp (fun _ _ _ _ alpha => alpha))) 1 1 3 1 0
          (fun _ => 7)
      ∧ runOpenVDB (demoCollab (slotCompositeOp (fun _ _ _ _ alpha => alpha))) 1 3 3 1
          (fun _ => 7)
        = runOpenVDB (demoCollab (slotCompositeOp (fun _ _ _ _ alpha => alpha))) 1 1 3 1
          (fun _ => 7) :=
  passes_produce_same_image (demoCollab (slotCompositeOp (fun _ _ _ _ alpha => alpha)))
    (fun _ _ _ _ alpha => alpha) 1 3 1 (fun _ => 7) 3
    (fun _ _ _ _ _ _ => rfl) (fun _ _ _ _ _ => rfl) (by decide)

/-- C11. In a medium that is the same density `d` at the first `2n` sampled coordinates,
the transmittance the march loop has accumulated after `2n` iterations is
`(1 - d * 0.1 * 0.5) ^ (2n)`, after `n` iterations it is `(1 - d * 0.1 * 0.5) ^ n`, and
the former is the square of the latter; when the clipped interval takes `2n` steps this
is the transmittance with which the loop exits. -/
theorem doubling_squares_transmittance (K : Collab RayT GridT Image) (grid : GridT)
    (iRay : RayT) (d : ℚ) (rd : List CoordT) (n : ℕ)
    (hu : ∀ k : ℕ, k < 2 * n → sampleAt K grid iRay k = d) :
    ((marchStep K grid iRay)^[2 * n]
          { t := K.t0 iRay, transmittance := 1, reads := rd }).transmittance
        = (((marchStep K grid iRay)^[n]
            { t := K.t0 iRay, transmittance := 1, reads := rd }).transmittance) ^ 2
      ∧ ((marchStep K grid iRay)^[2 * n]
          { t := K.t0 iRay, transmittance := 1, reads := rd }).transmittance
        = (1 - d * (1 / 10) * (1 / 2)) ^ (2 * n)
      ∧ ((marchStep K grid iRay)^[n]
          { t := K.t0 iRay, transmittance := 1, reads := rd }).transmittance
        = (1 - d * (1 / 10) * (1 / 2)) ^ n
      ∧ (1 - d * (1 / 10) * (1 / 2)) ^ (2 * n) = ((1 - d * (1 / 10) * (1 / 2)) ^ n) ^ 2
      ∧ (stepCount K iRay = 2 * n →
          (march K grid iRay { t := K.t0 iRay, transmittance := 1, reads := rd }).transmittance
            = (((marchStep K grid iRay)^[n]
                { t := K.t0 iRay, transmittance := 1, reads := rd }).transmittance) ^ 2) := by
  have h2 := iterate_transmittance_uniform K grid iRay d rd (2 * n) hu
  have h1 := iterate_transmittance_uniform K grid iRay d rd n
    (fun k hk => hu k (by omega))
  have hpow : (1 - d * (1 / 10) * (1 / 2)) ^ (2 * n)
      = ((1 - d * (1 / 10) * (1 / 2)) ^ n) ^ 2 := by
    rw [← pow_mul, Nat.mul_comm n 2]
  refine ⟨by rw [h2, h1, hpow], h2, h1, hpow, ?_⟩
  intro hcount
  rw [march_eq_iterate_ceil]
  show ((marchStep K grid iRay)^[stepCount K iRay]
      { t := K.t0 iRay, transmittance := 1, reads := rd }).transmittance = _
  rw [hcount, h2, h1, hpow]

/-- Witness for C11 in the worked scene: grid value `1`, the ray of pixel `2`, `n = 1`. -/
theorem doubling_squares_transmittance_witness :
    ((marchStep (demoCollab logCompositeOp) 1 (demoRay 2))^[2 * 1]
          { t := (demoCollab logCompositeOp).t0 (demoRay 2), transmittance := 1,
            reads := [] }).transmittance
        = (((marchStep (demoCollab logCompositeOp) 1 (demoRay 2))^[1]
            { t := (demoCollab logCompositeOp).t0 (demoRay 2), transmittance := 1,
              reads := [] }).transmittance) ^ 2
      ∧ ((marchStep (demoCollab logCompositeOp) 1 (demoRay 2))^[2 * 1]
          { t := (demoCollab logCompositeOp).t0 (demoRay 2), transmittance := 1,
            reads := [] }).transmittance
        = (1 - 1 * (1 / 10) * (1 / 2)) ^ (2 * 1)
      ∧ ((marchStep (demoCollab logCompositeOp) 1 (demoRay 2))^[1]
          { t := (demoCollab logCompositeOp).t0 (demoRay 2), transmittance := 1,
            reads := [] }).transmittance
        = (1 - 1 * (1 / 10) * (1 / 2)) ^ 1
      ∧ (1 - (1 : ℚ) * (1 / 10) * (1 / 2)) ^ (2 * 1) = ((1 - 1 * (1 / 10) * (1 / 2)) ^ 1) ^ 2
      ∧ (stepCount (demoCollab logCompositeOp) (demoRay 2) = 2 * 1 →
          (march (demoCollab logCompositeOp) 1 (demoRay 2)
            { t := (demoCollab logCompositeOp).t0 (demoRay 2), transmittance := 1,
              reads := [] }).transmittance
            = (((marchStep (demoCollab logCompositeOp) 1 (demoRay 2))^[1]
                { t := (demoCollab logCompositeOp).t0 (demoRay 2), transmittance := 1,
                  reads := [] }).transmittance) ^ 2) :=
  doubling_squares_transmittance (demoCollab logCompositeOp) 1 (demoRay 2) 1 [] 1
    (fun _ _ => rfl)

/-- C13. The march does not clamp. In the worked scene with the grid value `30`
everywhere, the ray of pixel `1` hits and takes a single sample of density `30`; the
loop exits with transmittance `-1/2`, the opacity is `3/2`, and the kernel invocation
over `[1, 2)` ends normally with the one compositor call `(1, 0, 3/2)`. -/
theorem march_overshoot_is_composited :
    (demoCollab logCompositeOp).clip (indexRay (demoCollab logCompositeOp) 2 1 30 1)
        = some (demoRay 1)
      ∧ stepCount (demoCollab logCompositeOp) (demoRay 1) = 1
      ∧ sampleAt (demoCollab logCompositeOp) 30 (demoRay 1) 0 = 30
      ∧ (march (demoCollab logCompositeOp) 30 (demoRay 1)
          { t := (demoCollab logCompositeOp).t0 (demoRay 1), transmittance := 1,
            reads := [] }).transmittance = -1 / 2
      ∧ (march (demoCollab logCompositeOp) 30 (demoRay 1)
          { t := (demoCollab logCompositeOp).t0 (demoRay 1), transmittance := 1,
            reads := [] }).transmittance < 0
      ∧ opacity (demoCollab logCompositeOp) 30 (demoRay 1) = 3 / 2
      ∧ 1 < opacity (demoCollab logCompositeOp) 30 (demoRay 1)
      ∧ (renderOp (demoCollab logCompositeOp) 2 1 1 (1 + 1) [] 30).image = [(1, 0, 3 / 2)] := by
  have hop : opacity (demoCollab logCompositeOp) 30 (demoRay 1) = 3 / 2 := by
    rw [demo_opacity, demo_stepCount_one]
    unfold dt; norm_num
  have htr : (march (demoCollab logCompositeOp) 30 (demoRay 1)
      { t := (demoCollab logCompositeOp).t0 (demoRay 1), transmittance := 1,
        reads := [] }).transmittance = -1 / 2 := by
    have h := hop
    unfold opacity at h
    linarith
  refine ⟨demo_clip_one _ 2 1 30, demo_stepCount_one _, rfl, htr, ?_, hop, ?_, ?_⟩
  · rw [htr]; norm_num
  · rw [hop]; norm_num
  · rw [renderOp_single_hit _ 2 1 30 [] 1 (demoRay 1) (demo_clip_one _ 2 1 30), hop]
    rfl

/-- C7 as stated fails on the loop of line 73, whose variable is a binary32 number. On
the finite interval `[2 ^ 23, 2 ^ 23 + 1)` the sum `t + 0.5` rounds back to `t`, so the
loop has not exited after any number of guard evaluations. On `[0.1f, 0.6f)` the sum
`0.1f + 0.5` rounds to `0.6f`, so the loop exits after one sample, while
`⌈(t1 - t0) / 0.5⌉` is `2`. -/
theorem marchF32_stalls_and_miscounts :
    (demoCollab logCompositeOp).t0 stallRay ≤ (demoCollab logCompositeOp).t1 stallRay
      ∧ (∀ fuel : ℕ, marchF32 (demoCollab logCompositeOp) stallRay fuel
          { t := (demoCollab logCompositeOp).t0 stallRay, reads := [] } = none)
      ∧ (demoCollab logCompositeOp).t0 tenthRay ≤ (demoCollab logCompositeOp).t1 tenthRay
      ∧ ⌈((demoCollab logCompositeOp).t1 tenthRay - (demoCollab logCompositeOp).t0 tenthRay)
          / (1 / 2)⌉ = 2
      ∧ (∀ fuel : ℕ, 1 < fuel → marchF32 (demoCollab logCompositeOp) tenthRay fuel
          { t := (demoCollab logCompositeOp).t0 tenthRay, reads := [] }
          = some { t := 5033165 / 8388608
                   reads := [CoordT.floor ((demoCollab logCompositeOp).point tenthRay
                     ((demoCollab logCompositeOp).t0 tenthRay))] }) := by
  refine ⟨?_, ?_, ?_, ?_, ?_⟩
  · show (8388608 : ℚ) ≤ 8388609
    norm_num
  · intro fuel
    exact marchF32_stalled (demoCollab logCompositeOp) stallRay 8388608 fadd32_stall
      (by show (8388608 : ℚ) < 8388609; norm_num) fuel []
  · simp [demoCollab, tenthRay]
    norm_num
  · rw [Int.ceil_eq_iff]
    simp [demoCollab, tenthRay]
    norm_num
  · intro fuel hfuel
    rw [marchF32_eq_iterate (demoCollab logCompositeOp) tenthRay 1 fuel _ ?_ ?_ hfuel]
    · show some ({ t := fadd32 (13421773 / 134217728) dt, reads := _ } : LoopF32) = _
      rw [fadd32_tenth]
      rfl
    · intro k hk
      have hk0 : k = 0 := by omega
      subst hk0
      simp [demoCollab, tenthRay]
      norm_num
    · show ¬ fadd32 (13421773 / 134217728) dt < 5033165 / 8388608
      rw [fadd32_tenth]
      exact lt_irrefl _

/-- C7, amended. For a clipped interval with `t0 ≤ t1` on which every sum `t + 0.5` the
loop forms is exact in binary32, the march loop exits (given more fuel than steps) after
exactly `⌈(t1 - t0) / 0.5⌉` iterations, with that many grid reads added to the log (none
when `t0 = t1`), with the guard `t < t1` false, and with `t` strictly larger after each
iteration. -/
theorem marchF32_exact_runs_ceil_steps (K : Collab RayT GridT Image) (iRay : RayT)
    (rd : List CoordT) (h : K.t0 iRay ≤ K.t1 iRay)
    (hexact : ∀ k : ℕ, K.t0 iRay + k * (1 / 2) < K.t1 iRay →
      fadd32 (K.t0 iRay + k * (1 / 2)) (1 / 2) = K.t0 iRay + k * (1 / 2) + 1 / 2) :
    ((stepCount K iRay : ℕ) : ℤ) = ⌈(K.t1 iRay - K.t0 iRay) / (1 / 2)⌉
      ∧ (∀ fuel : ℕ, stepCount K iRay < fuel →
          marchF32 K iRay fuel { t := K.t0 iRay, reads := rd }
            = some ((marchStepF32 K iRay)^[stepCount K iRay] { t := K.t0 iRay, reads := rd }))
      ∧ (((marchStepF32 K iRay)^[stepCount K iRay]
            { t := K.t0 iRay, reads := rd }).reads.length : ℤ)
          = rd.length + ⌈(K.t1 iRay - K.t0 iRay) / (1 / 2)⌉
      ∧ ¬ ((marchStepF32 K iRay)^[stepCount K iRay] { t := K.t0 iRay, reads := rd }).t
            < K.t1 iRay
      ∧ (∀ k : ℕ, k < stepCount K iRay →
          ((marchStepF32 K iRay)^[k] { t := K.t0 iRay, reads := rd }).t
            < ((marchStepF32 K iRay)^[k + 1] { t := K.t0 iRay, reads := rd }).t)
      ∧ (K.t0 iRay = K.t1 iRay →
          ((marchStepF32 K iRay)^[stepCount K iRay]
            { t := K.t0 iRay, reads := rd }).reads = rd) := by
  have hceil : 0 ≤ ⌈(K.t1 iRay - K.t0 iRay) / dt⌉ := by
    apply Int.ceil_nonneg
    apply div_nonneg (by linarith)
    unfold dt; norm_num
  have hcount : ((stepCount K iRay : ℕ) : ℤ) = ⌈(K.t1 iRay - K.t0 iRay) / dt⌉ :=
    Int.toNat_of_nonneg hceil
  have hex : ∀ k : ℕ, k < stepCount K iRay →
      fadd32 (K.t0 iRay + k * dt) dt = K.t0 iRay + k * dt + dt :=
    fun k hk => hexact k ((lt_stepCount_iff K iRay k).mp hk)
  have ht := iterate_marchStepF32_t K iRay (stepCount K iRay)
    { t := K.t0 iRay, reads := rd } hex
  have hguard : ∀ k : ℕ, k < stepCount K iRay →
      ((marchStepF32 K iRay)^[k] { t := K.t0 iRay, reads := rd }).t < K.t1 iRay := by
    intro k hk
    rw [ht k (le_of_lt hk)]
    exact (lt_stepCount_iff K iRay k).mp hk
  have hexit : ¬ ((marchStepF32 K iRay)^[stepCount K iRay]
      { t := K.t0 iRay, reads := rd }).t < K.t1 iRay := by
    rw [ht _ le_rfl]
    intro hc
    exact lt_irrefl _ ((lt_stepCount_iff K iRay _).mpr hc)
  refine ⟨hcount, ?_, ?_, hexit, ?_, ?_⟩
  · intro fuel hfuel
    exact marchF32_eq_iterate K iRay (stepCount K iRay) fuel _ hguard hexit hfuel
  · rw [iterate_marchStepF32_reads_length]
    push_cast
    rw [hcount]; rfl
  · intro k hk
    rw [ht k (le_of_lt hk), ht (k + 1) hk]
    push_cast
    unfold dt; linarith
  · intro heq
    have hzero : stepCount K iRay = 0 := by
      unfold stepCount
      rw [heq]; simp
    rw [hzero]; rfl

/-- Witness for the amended C7 in the worked scene: the clipped ray of pixel `2`, over
`[0, 1)`, where the sums `0 + 0.5` and `0.5 + 0.5` are exact. -/
theorem marchF32_exact_runs_ceil_steps_witness :
    ((stepCount (demoCollab logCompositeOp) (demoRay 2) : ℕ) : ℤ)
        = ⌈((demoCollab logCompositeOp).t1 (demoRay 2)
            - (demoCollab logCompositeOp).t0 (demoRay 2)) / (1 / 2)⌉
      ∧ (∀ fuel : ℕ, stepCount (demoCollab logCompositeOp) (demoRay 2) < fuel →
          marchF32 (demoCollab logCompositeOp) (demoRay 2) fuel
              { t := (demoCollab logCompositeOp).t0 (demoRay 2), reads := [] }
            = some ((marchStepF32 (demoCollab logCompositeOp) (demoRay 2))^[
                stepCount (demoCollab logCompositeOp) (demoRay 2)]
                { t := (demoCollab logCompositeOp).t0 (demoRay 2), reads := [] }))
      ∧ (((marchStepF32 (demoCollab logCompositeOp) (demoRay 2))^[
              stepCount (demoCollab logCompositeOp) (demoRay 2)]
            { t := (demoCollab logCompositeOp).t0 (demoRay 2), reads := [] }).reads.length : ℤ)
          = ([] : List CoordT).length + ⌈((demoCollab logCompositeOp).t1 (demoRay 2)
              - (demoCollab logCompositeOp).t0 (demoRay 2)) / (1 / 2)⌉
      ∧ ¬ ((marchStepF32 (demoCollab logCompositeOp) (demoRay 2))^[
              stepCount (demoCollab logCompositeOp) (demoRay 2)]
            { t := (demoCollab logCompositeOp).t0 (demoRay 2), reads := [] }).t
            < (demoCollab logCompositeOp).t1 (demoRay 2)
      ∧ (∀ k : ℕ, k < stepCount (demoCollab logCompositeOp) (demoRay 2) →
          ((marchStepF32 (demoCollab logCompositeOp) (demoRay 2))^[k]
              { t := (demoCollab logCompositeOp).t0 (demoRay 2), reads := [] }).t
            < ((marchStepF32 (demoCollab logCompositeOp) (demoRay 2))^[k + 1]
              { t := (demoCollab logCompositeOp).t0 (demoRay 2), reads := [] }).t)
      ∧ ((demoCollab logCompositeOp).t0 (demoRay 2) = (demoCollab logCompositeOp).t1 (demoRay 2) →
          ((marchStepF32 (demoCollab logCompositeOp) (demoRay 2))^[
              stepCount (demoCollab logCompositeOp) (demoRay 2)]
            { t := (demoCollab logCompositeOp).t0 (demoRay 2), reads := [] }).reads = []) :=
  marchF32_exact_runs_ceil_steps (demoCollab logCompositeOp) (demoRay 2) []
    (by simp [demoCollab, demoRay])
    (by
      intro k hk
      have hk2 : k < stepCount (demoCollab logCompositeOp) (demoRay 2) :=
        (lt_stepCount_iff (demoCollab logCompositeOp) (demoRay 2) k).mpr hk
      rw [demo_stepCount_two] at hk2
      have hcases : k = 0 ∨ k = 1 := by omega
      rcases hcases with rfl | rfl
      · have h0 : (demoCollab logCompositeOp).t0 (demoRay 2) + ((0 : ℕ) : ℚ) * (1 / 2) = 0 := by
          simp [demoCollab, demoRay]
        rw [h0, zero_add]
        exact fadd32_zero_half
      · have h1 : (demoCollab logCompositeOp).t0 (demoRay 2) + ((1 : ℕ) : ℚ) * (1 / 2)
            = 1 / 2 := by
          simp [demoCollab, demoRay]
        rw [h1]
        have h2 : (1 : ℚ) / 2 + 1 / 2 = 1 := by norm_num
        rw [h2]
        exact fadd32_half_half)

end FogVolume
